import Mathlib

/-!
Verification development for the data-cleaning pipeline of
met_visualization_project.py.

The script loads the MetObjects table, drops the rows of The Libraries
department, derives a cleaned accession year and a Location field for
every row, and, for the highlight rows, normalizes the location strings
toward country names before aggregating them for the map.  The Python
functions are embedded below as executable Lean functions over lists of
characters and rows; a Python IndexError is modelled as Except.error and
the pandas missing value NaN as none.
-/

set_option autoImplicit false

/-- Python str applied to a possibly missing CSV field: the missing value
NaN prints as the three letter string nan, a present string is unchanged. -/
def pyStr : Option String → String
  | none => "nan"
  | some s => s

/-- Whitespace characters recognised by the Python str.split method with
no argument. -/
def isPySpace (c : Char) : Bool :=
  c = ' ' || c = '\t' || c = '\n' || c = '\r' || c = '\x0b' || c = '\x0c'

/-- Helper for pysplit: the accumulator holds the current word reversed. -/
def pysplitAux : List Char → List Char → List String
  | [], acc => if acc.isEmpty then [] else [String.mk acc.reverse]
  | c :: rest, acc =>
    if isPySpace c then
      if acc.isEmpty then pysplitAux rest []
      else String.mk acc.reverse :: pysplitAux rest []
    else pysplitAux rest (c :: acc)

/-- Python str.split with no argument: split on runs of whitespace,
dropping empty words. -/
def pysplit (s : String) : List String :=
  pysplitAux s.toList []

/-- Helper for splitBar. -/
def splitBarAux : List Char → List Char → List String
  | [], acc => [String.mk acc.reverse]
  | c :: rest, acc =>
    if c = '|' then String.mk acc.reverse :: splitBarAux rest []
    else splitBarAux rest (c :: acc)

/-- Python str.split with the vertical bar as separator: keeps empty
parts and always returns at least one part. -/
def splitBar (s : String) : List String :=
  splitBarAux s.toList []

/-- Python substring containment, needle in hay, on character lists. -/
def containsSub (hay needle : List Char) : Bool :=
  match hay with
  | [] => needle.isEmpty
  | _ :: t => needle.isPrefixOf hay || containsSub t needle

/-- The discard word set of clean_up_location_problems. -/
def discards : List String := ["or", "and", "(?)", "probably"]

/-- The directional word set of clean_up_location_problems, with the
Sothern typo of the source. -/
def directions : List String :=
  ["Northern", "Western", "Sothern", "Southern", "South", "Central", "Lower"]

/-- The islands list of clean_up_location_problems. -/
def islands : List String := ["Tahiti", "Mangareva"]

/-- The outliers dictionary of clean_up_location_problems. -/
def outliers : List (String × String) :=
  [("Democratic Republic of the Congo", "Congo (the Democratic Republic of the)"),
   ("Tibet", "China"),
   ("Iran (Persia)", "Iran"),
   ("New Spain (Mexico)", "Mexico")]

/-- The heuristic location cleaner clean_up_location_problems.  The test
on the parts of a bar separated entry, len of list of set equal one, is
rendered as all parts equal to the first part, which is equivalent since
split always returns a nonempty list.  Indexing a split result past its
end, a Python IndexError, is modelled as Except.error; the value np.nan
is modelled as none. -/
def clean_up_location_problems (entry : String) : Except String (Option String) :=
  if entry.toList.contains '|' then
    let parts := splitBar entry
    if parts.all (fun p => p == parts.headD "") then .ok (some (parts.headD ""))
    else .ok none
  else if (pysplit entry).any (fun w => discards.contains w) then .ok none
  else if (pysplit entry).any (fun w => directions.contains w) then
    match (pysplit entry).get? 1 with
    | some w => .ok (some w)
    | none => .error "IndexError"
  else if entry = "England" then .ok (some "United Kingdom")
  else if (pysplit entry).contains "present-day" then
    match (pysplit entry).get? 1 with
    | some w => .ok (some w)
    | none => .error "IndexError"
  else if containsSub entry.toList "formerly".toList then
    match (pysplit entry).get? 0 with
    | some w => .ok (some w)
    | none => .error "IndexError"
  else if islands.contains entry then .ok (some "French Polynesia")
  else
    match outliers.find? (fun p => p.1 == entry) with
    | some p => .ok (some p.2)
    | none => .ok none

/-- The function check_against_iso of the source.  Its try block calls
pycountry.countries.search_fuzzy, but the module pycountry is never
imported by the script, so evaluating the try block raises NameError on
every input and the bare except clause returns False unconditionally. -/
def check_against_iso (_country : String) : Bool := false

/-- The problem_locations loop: apply str to each unique raw Location
value and keep those for which check_against_iso returns False. -/
def problem_locations (unique_locations : List (Option String)) : List String :=
  (unique_locations.map pyStr).filter (fun e => !check_against_iso e)

/-- The improved_locations loop over the raw Location column of the
highlight rows: an entry whose str form is in the problem list goes
through the heuristic cleaner, the rest are kept unchanged. -/
def improved_locations_run (probs : List String) :
    List (Option String) → Except String (List (Option String))
  | [] => .ok []
  | e :: rest =>
    match (if probs.contains (pyStr e) then clean_up_location_problems (pyStr e)
           else .ok (some (pyStr e))) with
    | .error m => .error m
    | .ok v =>
      match improved_locations_run probs rest with
      | .error m => .error m
      | .ok vs => .ok (v :: vs)

/-- Pandas dropna on one column: keep the present values. -/
def dropna (l : List (Option String)) : List String :=
  l.filterMap id

/-- The row function clean_country_info_column of the source: both fields
are first passed through str, then tested for emptiness; an empty country
string falls back to the culture string, and the row gets NaN when both
strings are empty. -/
def clean_country_info_column (country culture : Option String) : Option String :=
  let c := pyStr country
  let cu := pyStr culture
  if c == "" && cu == "" then none
  else if c == "" then some cu
  else some c

/-- Location selection as the specification words it: the country text
when the country field is present, else the culture text when the culture
field is present, else absent. -/
def location_by_precedence_spec (country culture : Option String) : Option String :=
  match country with
  | some c => some c
  | none => culture

/-- The remainder of a location string after stripping its first
whitespace separated word, as the specification words the directional
clause of the cleaner. -/
def remainder_after_directional (s : String) : String :=
  String.intercalate " " ((pysplit s).drop 1)

/-- Window test: the four characters starting at position i exist and are
ASCII digits, one attempt of the regex search for four digits. -/
def win (l : List Char) (i : Nat) : Bool :=
  ((l.drop i).take 4).length == 4 && ((l.drop i).take 4).all Char.isDigit

/-- Leftmost match of the regex for four digits: scan the positions left
to right and return the first window of four digit characters. -/
def first4Digits : List Char → Option (List Char)
  | [] => none
  | c :: rest =>
    if win (c :: rest) 0 then some ((c :: rest).take 4)
    else first4Digits rest

/-- Decimal value of a list of digit characters. -/
def digitsToNat (l : List Char) : Nat :=
  l.foldl (fun a c => a * 10 + (c.toNat - 48)) 0

/-- The cleaned accession year of one entry of the year loop: the first
four digit match of the entry as a number, and none when the regex search
fails, in which case the source appends the empty string, which
to_numeric coerces to NaN. -/
def cleaned_accession_year (s : String) : Option Nat :=
  (first4Digits s.toList).map digitsToNat

/-- One row of the MetObjects table, restricted to the columns the script
loads; a missing CSV cell is none. -/
structure Row where
  objectNumber : Option String
  accessionYear : Option String
  department : Option String
  culture : Option String
  country : Option String
  isHighlight : Option String
deriving DecidableEq

/-- The drop of the rows of The Libraries department. -/
def drop_libraries (rows : List Row) : List Row :=
  rows.filter (fun r => pyStr r.department != "The Libraries")

/-- The Location column: each row paired with its derived location. -/
def add_location (rows : List Row) : List (Row × Option String) :=
  rows.map (fun r => (r, clean_country_info_column r.country r.culture))

/-- The highlight filter: rows whose Is Highlight field, made a string,
equals True. -/
def highlight_pairs (l : List (Row × Option String)) : List (Row × Option String) :=
  l.filter (fun p => pyStr p.1.isHighlight == "True")

/-- Helper for uniqFirst, carrying the values seen so far. -/
def uniqFirstAux {α : Type} [BEq α] : List α → List α → List α
  | _, [] => []
  | seen, x :: xs =>
    if seen.contains x then uniqFirstAux seen xs
    else x :: uniqFirstAux (x :: seen) xs

/-- First occurrence deduplication, as pandas unique. -/
def uniqFirst {α : Type} [BEq α] (l : List α) : List α :=
  uniqFirstAux [] l

/-- Stable insertion by descending count, helper for value_counts. -/
def insertByCount (p : String × Nat) : List (String × Nat) → List (String × Nat)
  | [] => [p]
  | q :: t => if q.2 < p.2 then p :: q :: t else q :: insertByCount p t

/-- Insertion sort by descending count, helper for value_counts. -/
def sortCountDesc : List (String × Nat) → List (String × Nat)
  | [] => []
  | p :: t => insertByCount p (sortCountDesc t)

/-- Pandas value_counts on a string column: one pair per distinct value
with its multiplicity, ordered by descending count. -/
def value_counts (l : List String) : List (String × Nat) :=
  sortCountDesc ((uniqFirst l).map (fun v => (v, l.count v)))

/-- The highlight aggregation stage of the script: the raw Location
values of the highlight rows, problem detection against the ISO check,
heuristic cleaning of the problem entries, dropna, and value_counts. -/
def highlight_aggregate (rows : List Row) : Except String (List (String × Nat)) :=
  let raw := (highlight_pairs (add_location rows)).map (fun p => p.2)
  let probs := problem_locations (uniqFirst raw)
  match improved_locations_run probs raw with
  | .error m => .error m
  | .ok imp => .ok (value_counts (dropna imp))

/-- The whole load, clean, aggregate pipeline on a list of input rows:
the cleaned accession year column, the Location column, and the improved
locations together with the highlight aggregate table. -/
def full_pipeline (rows : List Row) :
    List (Option Nat) × List (Option String) ×
      Except String (List (Option String) × List (String × Nat)) :=
  let rows1 := drop_libraries rows
  let years := rows1.map (fun r => cleaned_accession_year (pyStr r.accessionYear))
  let pairs := add_location rows1
  let raw := (highlight_pairs pairs).map (fun p => p.2)
  let probs := problem_locations (uniqFirst raw)
  let agg :=
    match improved_locations_run probs raw with
    | .error m => .error m
    | .ok imp => .ok (imp, value_counts (dropna imp))
  (years, pairs.map (fun p => p.2), agg)

/-! Helper lemmas about the split functions. -/

theorem splitBarAux_ne_nil (l : List Char) : ∀ acc, splitBarAux l acc ≠ [] := by
  induction l with
  | nil => intro acc; simp [splitBarAux]
  | cons c t ih =>
    intro acc
    unfold splitBarAux
    by_cases h : c = '|'
    · simp [h]
    · simpa [h] using ih (c :: acc)

theorem splitBar_ne_nil (s : String) : splitBar s ≠ [] :=
  splitBarAux_ne_nil s.toList []

theorem pysplitAux_acc_ne_nil (l : List Char) :
    ∀ a acc, pysplitAux l (a :: acc) ≠ [] := by
  induction l with
  | nil => intro a acc; simp [pysplitAux]
  | cons c t ih =>
    intro a acc
    unfold pysplitAux
    by_cases hs : isPySpace c = true
    · simp [hs]
    · simpa [hs] using ih c (a :: acc)

theorem pysplitAux_ne_nil_of_mem (l : List Char) :
    ∀ acc, (∃ c ∈ l, isPySpace c = false) → pysplitAux l acc ≠ [] := by
  induction l with
  | nil =>
    intro acc h
    rcases h with ⟨c, hc, _⟩
    cases hc
  | cons c t ih =>
    intro acc h
    unfold pysplitAux
    by_cases hs : isPySpace c = true
    · have ht : ∃ d ∈ t, isPySpace d = false := by
        rcases h with ⟨d, hd, hdf⟩
        cases hd with
        | head => rw [hs] at hdf; cases hdf
        | tail _ h2 => exact ⟨d, h2, hdf⟩
      by_cases ha : acc.isEmpty = true
      · simpa [hs, ha] using ih [] ht
      · simp [hs, ha]
    · cases acc with
      | nil => simpa [hs] using pysplitAux_acc_ne_nil t c []
      | cons a as => simpa [hs] using pysplitAux_acc_ne_nil t c (a :: as)

theorem mem_of_containsSub_cons (l : List Char) (c : Char) (needle : List Char) :
    containsSub l (c :: needle) = true → c ∈ l := by
  induction l with
  | nil => intro h; simp [containsSub] at h
  | cons a t ih =>
    intro h
    unfold containsSub at h
    rw [Bool.or_eq_true] at h
    cases h with
    | inl hp =>
      simp only [List.isPrefixOf, Bool.and_eq_true, beq_iff_eq] at hp
      rw [hp.1]
      exact List.mem_cons_self a t
    | inr hr => exact List.mem_cons_of_mem a (ih hr)

theorem pysplit_ne_nil_of_formerly (s : String) :
    containsSub s.toList "formerly".toList = true → pysplit s ≠ [] := by
  intro h
  have hF : "formerly".toList = 'f' :: "ormerly".toList := rfl
  rw [hF] at h
  have hf : 'f' ∈ s.toList := mem_of_containsSub_cons s.toList 'f' "ormerly".toList h
  exact pysplitAux_ne_nil_of_mem s.toList [] ⟨'f', hf, by decide⟩

/-! Helper lemmas about the four digit window search. -/

theorem win_cons (c : Char) (l : List Char) (i : Nat) :
    win (c :: l) (i + 1) = win l i := by
  simp [win, List.drop_succ_cons]

theorem first4Digits_eq_none_iff (l : List Char) :
    first4Digits l = none ↔ ∀ i, win l i = false := by
  induction l with
  | nil => simp [first4Digits, win]
  | cons c t ih =>
    constructor
    · intro hn i
      unfold first4Digits at hn
      by_cases h : win (c :: t) 0 = true
      · simp [h] at hn
      · cases i with
        | zero => simpa using h
        | succ j =>
          rw [win_cons]
          exact ih.mp (by simpa [h] using hn) j
    · intro hall
      unfold first4Digits
      have h0 : win (c :: t) 0 = false := hall 0
      simp [h0]
      exact ih.mpr (fun i => by rw [← win_cons c t i]; exact hall (i + 1))

theorem first4Digits_eq_some (l : List Char) (ds : List Char) :
    first4Digits l = some ds →
    ∃ i, win l i = true ∧ (∀ j, j < i → win l j = false) ∧
      ds = (l.drop i).take 4 := by
  induction l with
  | nil => intro h; simp [first4Digits] at h
  | cons c t ih =>
    intro h
    unfold first4Digits at h
    by_cases h0 : win (c :: t) 0 = true
    · refine ⟨0, h0, ?_, ?_⟩
      · intro j hj; exact absurd hj (Nat.not_lt_zero j)
      · simp [h0] at h
        simpa [List.drop_zero] using h.symm
    · rcases ih (by simpa [h0] using h) with ⟨i, hw, hmin, hds⟩
      refine ⟨i + 1, ?_, ?_, ?_⟩
      · rw [win_cons]; exact hw
      · intro j hj
        cases j with
        | zero => simpa using h0
        | succ k => rw [win_cons]; exact hmin k (by omega)
      · simpa [List.drop_succ_cons] using hds

/-- C1: the claim says the derived Location equals the country text when
the country field is present, else the culture text when present, and is
absent when both are absent.  The code disagrees: str of a missing NaN
cell is the nonempty string nan, so the emptiness tests of
clean_country_info_column never fire on a missing field; a row with a
missing Country and Culture France gets the Location string nan instead
of France, and a row with both fields missing gets nan instead of an
absent Location. -/
theorem c1_code_eval :
    clean_country_info_column none (some "France") = some "nan" ∧
    location_by_precedence_spec none (some "France") = some "France" ∧
    clean_country_info_column none none = some "nan" ∧
    location_by_precedence_spec none none = none :=
  ⟨rfl, rfl, rfl, rfl⟩

/-- C2: the claim says a location is a problem location exactly when the
fuzzy ISO lookup fails, and that names of countries in the reference pass
the lookup and are kept unchanged.  The code disagrees: the module
pycountry is never imported, so check_against_iso returns False on every
string; the ISO country name France is therefore classified as a problem
location, passed to the heuristic cleaner, and mapped to NaN rather than
kept unchanged. -/
theorem c2_code_eval :
    (∀ s : String, check_against_iso s = false) ∧
    problem_locations [some "France"] = ["France"] ∧
    clean_up_location_problems "France" = .ok none ∧
    improved_locations_run ["France"] [some "France"] = .ok [none] :=
  ⟨fun _ => rfl, rfl, rfl, rfl⟩

/-- C7: every key of the fixed synonym tables, the England clause, the
islands list and the outliers dictionary, reaches its clause and is
mapped to its fixed replacement country name. -/
theorem c7_synonym_table :
    clean_up_location_problems "England" = .ok (some "United Kingdom") ∧
    clean_up_location_problems "Tahiti" = .ok (some "French Polynesia") ∧
    clean_up_location_problems "Mangareva" = .ok (some "French Polynesia") ∧
    clean_up_location_problems "Democratic Republic of the Congo" =
      .ok (some "Congo (the Democratic Republic of the)") ∧
    clean_up_location_problems "Tibet" = .ok (some "China") ∧
    clean_up_location_problems "Iran (Persia)" = .ok (some "Iran") ∧
    clean_up_location_problems "New Spain (Mexico)" = .ok (some "Mexico") :=
  ⟨rfl, rfl, rfl, rfl, rfl, rfl, rfl⟩

/-- C4 counterexample: the string Central Sri Lanka contains the
directional word Central, no bar and no discard word, yet the cleaner
returns the single word Sri, not the remainder Sri Lanka obtained by
stripping the directional prefix as the claim states. -/
theorem c4_counterexample :
    clean_up_location_problems "Central Sri Lanka" = .ok (some "Sri") ∧
    remainder_after_directional "Central Sri Lanka" = "Sri Lanka" ∧
    ("Sri" : String) ≠ "Sri Lanka" :=
  ⟨rfl, rfl, by decide⟩

/-- C10 counterexample: on the one word string Northern the directional
clause selects the second word of a one element split, a Python
IndexError, so the cleaner is not total. -/
theorem c10_counterexample :
    clean_up_location_problems "Northern" = .error "IndexError" := rfl

/-- C3: the cleaned accession year is absent exactly when no position of
the entry starts a window of four consecutive ASCII digits, and when it
is present it is the decimal value of the leftmost such window, the first
match of the regex search. -/
theorem c3_first_four_digit_year (s : String) :
    (cleaned_accession_year s = none ↔ ∀ i, win s.toList i = false) ∧
    (∀ n, cleaned_accession_year s = some n →
      ∃ i, win s.toList i = true ∧ (∀ j, j < i → win s.toList j = false) ∧
        n = digitsToNat ((s.toList.drop i).take 4)) := by
  constructor
  · unfold cleaned_accession_year
    rw [Option.map_eq_none']
    exact first4Digits_eq_none_iff s.toList
  · intro n hn
    unfold cleaned_accession_year at hn
    rcases Option.map_eq_some'.mp hn with ⟨ds, hds, hval⟩
    rcases first4Digits_eq_some s.toList ds hds with ⟨i, hw, hmin, hdseq⟩
    exact ⟨i, hw, hmin, by rw [← hval, hdseq]⟩

/-- Witness for C3 at the entry x12345: the first window starts after the
letter and the year read is 1234. -/
theorem c3_first_four_digit_year_witness :
    ∃ i, win "x12345".toList i = true ∧
      (∀ j, j < i → win "x12345".toList j = false) ∧
      1234 = digitsToNat (("x12345".toList.drop i).take 4) :=
  (c3_first_four_digit_year "x12345").2 1234 rfl

/-- Branch lemma: on an entry containing the bar separator the cleaner
reduces to the test that all parts agree. -/
theorem clean_up_of_bar (entry : String)
    (hbar : entry.toList.contains '|' = true) :
    clean_up_location_problems entry =
      if (splitBar entry).all (fun p => p == (splitBar entry).headD "")
      then .ok (some ((splitBar entry).headD "")) else .ok none := by
  unfold clean_up_location_problems
  rw [if_pos hbar]

/-- Branch lemma: with no bar and a discard word the cleaner returns
NaN. -/
theorem clean_up_of_discard (entry : String)
    (h1 : entry.toList.contains '|' = false)
    (h2 : ((pysplit entry).any fun w => discards.contains w) = true) :
    clean_up_location_problems entry = .ok none := by
  unfold clean_up_location_problems
  rw [if_neg (by rw [h1]; exact Bool.false_ne_true), if_pos h2]

/-- Branch lemma: with no bar, no discard word and a directional word the
cleaner selects the second word of the split. -/
theorem clean_up_of_direction (entry : String)
    (h1 : entry.toList.contains '|' = false)
    (h2 : ((pysplit entry).any fun w => discards.contains w) = false)
    (h3 : ((pysplit entry).any fun w => directions.contains w) = true) :
    clean_up_location_problems entry =
      match (pysplit entry).get? 1 with
      | some w => .ok (some w)
      | none => .error "IndexError" := by
  unfold clean_up_location_problems
  rw [if_neg (by rw [h1]; exact Bool.false_ne_true),
    if_neg (by rw [h2]; exact Bool.false_ne_true), if_pos h3]

/-- C4 amended: when a problem location string contains a directional
word among its whitespace separated words, contains no bar and no discard
word, and has at least two words, the cleaner returns the second
whitespace separated word of the string, whatever words follow it. -/
theorem c4_second_word (entry : String)
    (h1 : entry.toList.contains '|' = false)
    (h2 : ∀ w ∈ pysplit entry, discards.contains w = false)
    (h3 : ∃ w ∈ pysplit entry, directions.contains w = true)
    (h4 : 2 ≤ (pysplit entry).length) :
    clean_up_location_problems entry = .ok ((pysplit entry).get? 1) := by
  have hd : ((pysplit entry).any fun w => discards.contains w) = false := by
    rw [Bool.eq_false_iff]
    intro hcontra
    rcases List.any_eq_true.mp hcontra with ⟨w, hw, hpw⟩
    rw [h2 w hw] at hpw
    cases hpw
  have hdir : ((pysplit entry).any fun w => directions.contains w) = true := by
    rcases h3 with ⟨w, hw, hpw⟩
    exact List.any_eq_true.mpr ⟨w, hw, hpw⟩
  have hget : ∃ w, (pysplit entry).get? 1 = some w := by
    cases hg : (pysplit entry).get? 1 with
    | some w => exact ⟨w, rfl⟩
    | none => rw [List.get?_eq_none] at hg; omega
  rcases hget with ⟨w, hw⟩
  rw [clean_up_of_direction entry h1 hd hdir, hw]

/-- Witness for C4 amended at Northern France, whose second word is
France. -/
theorem c4_second_word_witness :
    clean_up_location_problems "Northern France" =
      .ok ((pysplit "Northern France").get? 1) :=
  c4_second_word "Northern France" (by decide) (by decide) (by decide) (by decide)

/-- C5: on an entry containing the bar separator, the cleaner returns the
single shared part when all bar separated parts are equal, and NaN when
two parts differ. -/
theorem c5_separator_split (entry : String)
    (hbar : entry.toList.contains '|' = true) :
    (∀ v : String, (∀ p ∈ splitBar entry, p = v) →
      clean_up_location_problems entry = .ok (some v)) ∧
    ((∃ p ∈ splitBar entry, ∃ q ∈ splitBar entry, p ≠ q) →
      clean_up_location_problems entry = .ok none) := by
  constructor
  · intro v hv
    obtain ⟨a, t, hat⟩ : ∃ a t, splitBar entry = a :: t := by
      cases hsb : splitBar entry with
      | nil => exact absurd hsb (splitBar_ne_nil entry)
      | cons a t => exact ⟨a, t, rfl⟩
    have hhead : (splitBar entry).headD "" = v := by
      rw [hat, List.headD_cons]
      exact hv a (hat ▸ List.mem_cons_self a t)
    have hall : ((splitBar entry).all fun p => p == (splitBar entry).headD "") = true := by
      rw [List.all_eq_true]
      intro p hp
      rw [hv p hp, hhead]
      exact beq_self_eq_true v
    rw [clean_up_of_bar entry hbar, if_pos hall, hhead]
  · rintro ⟨p, hp, q, hq, hpq⟩
    have hall : ((splitBar entry).all fun x => x == (splitBar entry).headD "") = false := by
      rw [Bool.eq_false_iff]
      intro hcontra
      rw [List.all_eq_true] at hcontra
      have h1 := beq_iff_eq.mp (hcontra p hp)
      have h2 := beq_iff_eq.mp (hcontra q hq)
      exact hpq (h1.trans h2.symm)
    rw [clean_up_of_bar entry hbar,
      if_neg (by rw [hall]; exact Bool.false_ne_true)]

/-- Witness for C5: all parts of France bar France agree and give France,
the parts of France bar Italy differ and give NaN. -/
theorem c5_separator_split_witness :
    clean_up_location_problems "France|France" = .ok (some "France") ∧
    clean_up_location_problems "France|Italy" = .ok none :=
  ⟨(c5_separator_split "France|France" (by decide)).1 "France" (by decide),
   (c5_separator_split "France|Italy" (by decide)).2
     ⟨"France", by decide, "Italy", by decide, by decide⟩⟩

/-- Unfolding lemma for one step of the improved locations loop. -/
theorem improved_locations_run_cons (probs : List String) (e : Option String)
    (t : List (Option String)) :
    improved_locations_run probs (e :: t) =
      match (if probs.contains (pyStr e) then clean_up_location_problems (pyStr e)
             else .ok (some (pyStr e))) with
      | .error m => .error m
      | .ok v =>
        match improved_locations_run probs t with
        | .error m => .error m
        | .ok vs => .ok (v :: vs) := rfl

/-- Decomposition of the improved locations loop over an appended list:
the loop succeeds exactly when it succeeds on both halves, and the output
is the concatenation of the two outputs. -/
theorem improved_locations_run_append (probs : List String)
    (l1 l2 : List (Option String)) (r : List (Option String)) :
    improved_locations_run probs (l1 ++ l2) = .ok r ↔
      ∃ r1 r2, improved_locations_run probs l1 = .ok r1 ∧
        improved_locations_run probs l2 = .ok r2 ∧ r = r1 ++ r2 := by
  induction l1 generalizing r with
  | nil =>
    simp only [List.nil_append]
    constructor
    · intro h
      exact ⟨[], r, rfl, h, by simp⟩
    · rintro ⟨r1, r2, h1, h2, h3⟩
      have hr1 : r1 = [] := by
        simp [improved_locations_run] at h1
        exact h1
      subst hr1
      subst h3
      simpa using h2
  | cons e t ih =>
    simp only [List.cons_append]
    constructor
    · intro h
      rw [improved_locations_run_cons] at h
      cases hA : (if probs.contains (pyStr e) then clean_up_location_problems (pyStr e)
                  else .ok (some (pyStr e))) with
      | error m => rw [hA] at h; simp at h
      | ok v =>
        rw [hA] at h
        simp only [] at h
        cases hB : improved_locations_run probs (t ++ l2) with
        | error m => rw [hB] at h; simp at h
        | ok vs =>
          rw [hB] at h
          simp at h
          rcases (ih vs).mp hB with ⟨s1, s2, ht, hl2, hvs⟩
          refine ⟨v :: s1, s2, ?_, hl2, ?_⟩
          · rw [improved_locations_run_cons, hA, ht]
          · rw [← h, hvs]
            simp
    · rintro ⟨r1, r2, h1, h2, h3⟩
      rw [improved_locations_run_cons] at h1
      cases hA : (if probs.contains (pyStr e) then clean_up_location_problems (pyStr e)
                  else .ok (some (pyStr e))) with
      | error m => rw [hA] at h1; simp at h1
      | ok v =>
        rw [hA] at h1
        simp only [] at h1
        cases hC : improved_locations_run probs t with
        | error m => rw [hC] at h1; simp at h1
        | ok s1 =>
          rw [hC] at h1
          simp at h1
          have hrun : improved_locations_run probs (t ++ l2) = .ok (s1 ++ r2) :=
            (ih (s1 ++ r2)).mpr ⟨s1, r2, hC, h2, rfl⟩
          rw [improved_locations_run_cons, hA, hrun]
          subst h3
          rw [← h1]
          simp

/-- C6: a problem location entry with no bar separator and a discard word
among its whitespace separated words is mapped to NaN by the cleaner, and
the corresponding row is removed by the dropna step, contributing nothing
to the highlight aggregate: the kept column and the value counts computed
with the row equal those computed without it. -/
theorem c6_discard_dropped (entry : String)
    (hbar : entry.toList.contains '|' = false)
    (hd : ∃ w ∈ pysplit entry, discards.contains w = true) :
    clean_up_location_problems entry = .ok none ∧
    ∀ (probs : List String) (pre post r : List (Option String)),
      probs.contains entry = true →
      improved_locations_run probs (pre ++ some entry :: post) = .ok r →
      ∃ r', improved_locations_run probs (pre ++ post) = .ok r' ∧
        dropna r = dropna r' ∧
        value_counts (dropna r) = value_counts (dropna r') := by
  have hclean : clean_up_location_problems entry = .ok none := by
    apply clean_up_of_discard entry hbar
    rcases hd with ⟨w, hw, hpw⟩
    exact List.any_eq_true.mpr ⟨w, hw, hpw⟩
  refine ⟨hclean, ?_⟩
  intro probs pre post r hmem hrun
  rcases (improved_locations_run_append probs pre (some entry :: post) r).mp hrun
    with ⟨r1, r23, hpre, hmid, hr⟩
  rw [improved_locations_run_cons,
      if_pos (show probs.contains (pyStr (some entry)) = true from hmem),
      show clean_up_location_problems (pyStr (some entry)) = .ok none from hclean] at hmid
  cases hB : improved_locations_run probs post with
  | error m => rw [hB] at hmid; simp at hmid
  | ok r3 =>
    rw [hB] at hmid
    simp at hmid
    have hpp : improved_locations_run probs (pre ++ post) = .ok (r1 ++ r3) :=
      (improved_locations_run_append probs pre post (r1 ++ r3)).mpr ⟨r1, r3, hpre, hB, rfl⟩
    have hdrop : dropna r = dropna (r1 ++ r3) := by
      rw [hr, ← hmid]
      simp [dropna, List.filterMap_append]
    exact ⟨r1 ++ r3, hpp, hdrop, by rw [hdrop]⟩

/-- Witness for C6 at the entry France or Italy inside a one element
highlight column. -/
theorem c6_discard_dropped_witness :
    clean_up_location_problems "France or Italy" = .ok none ∧
    (∃ r', improved_locations_run ["France or Italy"] ([] ++ []) = .ok r' ∧
      dropna [none] = dropna r' ∧
      value_counts (dropna [none]) = value_counts (dropna r')) := by
  have h := c6_discard_dropped "France or Italy" (by decide) ⟨"or", by decide, by decide⟩
  exact ⟨h.1, h.2 ["France or Italy"] [] [] [none] (by decide) (by rfl)⟩

/-- C8: the highlight normalization touches only highlight rows: a row
whose highlight flag string is not True keeps its row local derived
location in the Location column, is removed by the highlight filter, and
the highlight aggregate computed with the row equals the aggregate
computed without it. -/
theorem c8_highlight_frame (pre post : List Row) (r : Row)
    (h : pyStr r.isHighlight ≠ "True") :
    add_location (pre ++ r :: post) =
      add_location pre ++
        (r, clean_country_info_column r.country r.culture) :: add_location post ∧
    highlight_pairs (add_location (pre ++ r :: post)) =
      highlight_pairs (add_location (pre ++ post)) ∧
    highlight_aggregate (pre ++ r :: post) = highlight_aggregate (pre ++ post) := by
  have hb : (pyStr r.isHighlight == "True") = false := by
    rw [beq_eq_false_iff_ne]
    exact h
  have h2 : highlight_pairs (add_location (pre ++ r :: post)) =
      highlight_pairs (add_location (pre ++ post)) := by
    simp [add_location, highlight_pairs, List.filter_append, hb]
  refine ⟨by simp [add_location], h2, ?_⟩
  unfold highlight_aggregate
  rw [h2]

/-- Witness for C8 with a single non highlight row. -/
theorem c8_highlight_frame_witness :
    highlight_aggregate ([] ++ Row.mk none none none none none (some "False") :: []) =
      highlight_aggregate ([] ++ []) :=
  (c8_highlight_frame [] [] (Row.mk none none none none none (some "False"))
    (by decide)).2.2

/-- C9: the load, clean, aggregate pipeline is a pure function of the
input records: equal input record lists give equal derived columns,
improved locations and aggregate tables, with nothing else to depend
on. -/
theorem c9_deterministic (rows rows' : List Row) (h : rows = rows') :
    full_pipeline rows = full_pipeline rows' := by
  rw [h]

/-- Witness for C9 on a concrete one row input. -/
theorem c9_deterministic_witness :
    [Row.mk none (some "1923") none none (some "France") (some "True")] =
      [Row.mk none (some "1923") none none (some "France") (some "True")] ∧
    full_pipeline [Row.mk none (some "1923") none none (some "France") (some "True")] =
      full_pipeline [Row.mk none (some "1923") none none (some "France") (some "True")] :=
  ⟨rfl, c9_deterministic _ _ rfl⟩

/-- Branch lemma: with no bar, no discard word and no directional word
the cleaner reduces to the England, present-day, formerly, islands and
outliers clauses. -/
theorem clean_up_of_no_front (entry : String)
    (h1 : entry.toList.contains '|' = false)
    (h2 : ((pysplit entry).any fun w => discards.contains w) = false)
    (h3 : ((pysplit entry).any fun w => directions.contains w) = false) :
    clean_up_location_problems entry =
      (if entry = "England" then .ok (some "United Kingdom")
       else if (pysplit entry).contains "present-day" then
         match (pysplit entry).get? 1 with
         | some w => .ok (some w)
         | none => .error "IndexError"
       else if containsSub entry.toList "formerly".toList then
         match (pysplit entry).get? 0 with
         | some w => .ok (some w)
         | none => .error "IndexError"
       else if islands.contains entry then .ok (some "French Polynesia")
       else
         match outliers.find? (fun p => p.1 == entry) with
         | some p => .ok (some p.2)
         | none => .ok none) := by
  unfold clean_up_location_problems
  rw [if_neg (by rw [h1]; exact Bool.false_ne_true),
      if_neg (by rw [h2]; exact Bool.false_ne_true),
      if_neg (by rw [h3]; exact Bool.false_ne_true)]

/-- C10 amended: the heuristic cleaner returns a value, a string or NaN,
on every input string that has at least two whitespace separated words,
and on every string none of whose words is a directional word or the word
present-day; on a short directional or present-day string the second word
selection raises IndexError instead, as the counterexample records. -/
theorem c10_total_guarded (entry : String)
    (h : 2 ≤ (pysplit entry).length ∨
      ∀ w ∈ pysplit entry, directions.contains w = false ∧ w ≠ "present-day") :
    ∃ v, clean_up_location_problems entry = .ok v := by
  have hget1 : 2 ≤ (pysplit entry).length → ∃ w, (pysplit entry).get? 1 = some w := by
    intro h4
    cases hg : (pysplit entry).get? 1 with
    | some w => exact ⟨w, rfl⟩
    | none => rw [List.get?_eq_none] at hg; omega
  by_cases h1 : entry.toList.contains '|' = true
  · rw [clean_up_of_bar entry h1]
    by_cases hp : ((splitBar entry).all fun p => p == (splitBar entry).headD "") = true
    · exact ⟨some ((splitBar entry).headD ""), by rw [if_pos hp]⟩
    · exact ⟨none, by rw [if_neg hp]⟩
  have h1' : entry.toList.contains '|' = false := by simpa using h1
  by_cases h2 : ((pysplit entry).any fun w => discards.contains w) = true
  · exact ⟨none, clean_up_of_discard entry h1' h2⟩
  have h2' : ((pysplit entry).any fun w => discards.contains w) = false := by
    simpa using h2
  by_cases h3 : ((pysplit entry).any fun w => directions.contains w) = true
  · have hlen : 2 ≤ (pysplit entry).length := by
      rcases h with h4 | hall
      · exact h4
      · exfalso
        rcases List.any_eq_true.mp h3 with ⟨w, hw, hpw⟩
        rw [(hall w hw).1] at hpw
        cases hpw
    rcases hget1 hlen with ⟨w, hw⟩
    exact ⟨some w, by rw [clean_up_of_direction entry h1' h2' h3, hw]⟩
  have h3' : ((pysplit entry).any fun w => directions.contains w) = false := by
    simpa using h3
  rw [clean_up_of_no_front entry h1' h2' h3']
  by_cases h4 : entry = "England"
  · exact ⟨some "United Kingdom", by rw [if_pos h4]⟩
  rw [if_neg h4]
  by_cases h5 : (pysplit entry).contains "present-day" = true
  · have hlen : 2 ≤ (pysplit entry).length := by
      rcases h with h6 | hall
      · exact h6
      · exfalso
        have hmem : "present-day" ∈ pysplit entry := by simpa using h5
        exact (hall _ hmem).2 rfl
    rcases hget1 hlen with ⟨w, hw⟩
    exact ⟨some w, by rw [if_pos h5, hw]⟩
  rw [if_neg h5]
  by_cases h6 : containsSub entry.toList "formerly".toList = true
  · have hne := pysplit_ne_nil_of_formerly entry h6
    obtain ⟨w, hw⟩ : ∃ w, (pysplit entry).get? 0 = some w := by
      cases hg : (pysplit entry).get? 0 with
      | some w => exact ⟨w, rfl⟩
      | none =>
        rw [List.get?_eq_none] at hg
        cases hh : pysplit entry with
        | nil => exact absurd hh hne
        | cons a t => rw [hh] at hg; simp at hg
    exact ⟨some w, by rw [if_pos h6, hw]⟩
  rw [if_neg h6]
  by_cases h7 : islands.contains entry = true
  · exact ⟨some "French Polynesia", by rw [if_pos h7]⟩
  rw [if_neg h7]
  cases hf : outliers.find? (fun p => p.1 == entry) with
  | some p => exact ⟨some p.2, rfl⟩
  | none => exact ⟨none, rfl⟩

/-- Witness for C10 amended at the two word entry Northern France. -/
theorem c10_total_guarded_witness :
    ∃ v, clean_up_location_problems "Northern France" = .ok v :=
  c10_total_guarded "Northern France" (Or.inl (by decide))
